import Mathlib

/-!
Verification of the framequery AST-to-plan compiler (`src/framequery/_dag_compile.py`)
against its specification. The compiler module is embedded faithfully below;
the AST node classes, the plan node classes and the handler-dispatch helper
live in modules that are not part of the sources (`_parser`, `_dag`,
`_util.introspect`), so those are modelled from the specification.
-/

namespace Framequery

/-- Modelled from the spec: the AST expression node classes of the `_parser`
module (not under the sources). Tagged variants per spec section 3:
ColumnReference, Integer, Float, String, Bool, Null, BinaryExpression,
UnaryExpression, FunctionCall, CaseExpression, Cast, GeneralSetFunction,
the Asterisk sentinel, and DerivedColumn (a value with an optional alias). -/
inductive Expr where
  | columnReference (parts : List String)
  | integer (value : String)
  | float (value : String)
  | string (value : String)
  | bool (value : Bool)
  | null
  | binaryExpression (op : String) (left right : Expr)
  | unaryExpression (op : String) (operand : Expr)
  | functionCall (name : String) (arguments : List Expr)
  | caseExpression (cases : List (Expr × Expr)) (elseValue : Option Expr)
  | cast (value : Expr) (typeName : String)
  | generalSetFunction (name : String) (value : Expr)
  | asterisk
  | derivedColumn (value : Expr) (aliasName : Option String)

/-- The failures raised by `_dag_compile.py` (all `ValueError`/`AssertionError`
in the source; the spec names them in its error taxonomy, section 7).
`noHandler` is the failure of the handler dispatch (`call_handler`, modelled
from the spec) when a node class has no handler method; its argument is the
snake-case node-class name used for the lookup. -/
inductive CompileError where
  | noHandler (name : String)
  | nestedAggregate
  | emptyFromClause
  | unknownSetQuantifier (s : String)
  | asteriskWithGroupBy
deriving DecidableEq, Repr

/-- `'$N'` for the next id `N`: `DagCompiler._tmp_column` and
`SplitAggregateTransformer._tmp_column` both render ids this way. The default
id generator yields the decimal strings "0", "1", ...; it is modelled by the
`Nat` counter threaded through the functions below. -/
def tmpColumn (g : Nat) : String := "$" ++ toString g

/-- `_ref(col_name)` from `_dag_compile.py`. -/
def ref (colName : String) : Expr := .columnReference [colName]

mutual

/-- `SplitAggregateTransformer.split`, including the `call_handler` dispatch
(modelled from the spec: dispatch keyed by node class name). The source
defines handlers only for derived_column, column_reference,
general_set_function, binary_expression, unary_expression, function_call,
integer and float; every other node class makes the dispatch fail. -/
def split : Expr → Nat → Except CompileError (Expr × List Expr × List Expr × Nat)
  | .derivedColumn value aliasName, g => do
      let (v, aggs, preAggs, g1) ← split value g
      pure (.derivedColumn v aliasName, aggs, preAggs, g1)
  | .columnReference parts, g => pure (.columnReference parts, [], [], g)
  | .generalSetFunction name value, g => do
      let (v, aggs, preAggs, g1) ← split value g
      match aggs, preAggs with
      | [], [] =>
          let preAggCol := tmpColumn g1
          let aggCol := tmpColumn (g1 + 1)
          let preAgg := Expr.derivedColumn v (some preAggCol)
          let agg := Expr.derivedColumn
            (.generalSetFunction name (ref preAggCol)) (some aggCol)
          pure (ref aggCol, [agg], [preAgg], g1 + 2)
      | _, _ => throw .nestedAggregate
  | .binaryExpression op l r, g => do
      let (l1, la, lp, g1) ← split l g
      let (r1, ra, rp, g2) ← split r g1
      pure (.binaryExpression op l1 r1, la ++ ra, lp ++ rp, g2)
  | .unaryExpression op e, g => do
      let (e1, aggs, preAggs, g1) ← split e g
      pure (.unaryExpression op e1, aggs, preAggs, g1)
  | .functionCall name args, g => do
      let (args1, aggs, preAggs, g1) ← splitArgs args g
      pure (.functionCall name args1, aggs, preAggs, g1)
  | .integer v, g => pure (.integer v, [], [], g)
  | .float v, g => pure (.float v, [], [], g)
  | .string _, _ => throw (.noHandler "string")
  | .bool _, _ => throw (.noHandler "bool")
  | .null, _ => throw (.noHandler "null")
  | .caseExpression _ _, _ => throw (.noHandler "case_expression")
  | .cast _ _, _ => throw (.noHandler "cast")
  | .asterisk, _ => throw (.noHandler "asterisk")

/-- The argument loop of `SplitAggregateTransformer.split_function_call`. -/
def splitArgs : List Expr → Nat → Except CompileError (List Expr × List Expr × List Expr × Nat)
  | [], g => pure ([], [], [], g)
  | e :: rest, g => do
      let (e1, aggs, preAggs, g1) ← split e g
      let (rest1, aggs2, preAggs2, g2) ← splitArgs rest g1
      pure (e1 :: rest1, aggs ++ aggs2, preAggs ++ preAggs2, g2)

end

/-- `split_aggregates(exprs)`: split each select-list entry, concatenating the
aggregate and pre-aggregate lists in order. -/
def split_aggregates : List Expr → Nat → Except CompileError (List Expr × List Expr × List Expr × Nat)
  | [], g => pure ([], [], [], g)
  | e :: rest, g => do
      let (c, aggs, preAggs, g1) ← split e g
      let (cs, aggs2, preAggs2, g2) ← split_aggregates rest g1
      pure (c :: cs, aggs ++ aggs2, preAggs ++ preAggs2, g2)

/-- Python `str.upper()` as used on the set quantifier (an ASCII keyword):
uppercase every character. Embedded as a structural map over the character
list so that it evaluates by reduction. -/
def strUpper (s : String) : String := ⟨s.data.map Char.toUpper⟩

/-- Python `str.lower()` as used on the join kind (an ASCII keyword):
lowercase every character. -/
def strLower (s : String) : String := ⟨s.data.map Char.toLower⟩

/-- The `(offset, limit)` pair of a LIMIT clause, as read by
`DagCompiler._limit` (`node.limit_clause.offset`, `node.limit_clause.limit`). -/
structure LimitClause where
  offset : Nat
  limit : Nat

/-- The select list of a `Select` node: either the `Asterisk` sentinel or a
list of derived columns (spec section 3). -/
inductive SelectList where
  | asterisk
  | columns (cols : List Expr)

mutual

/-- Modelled from the spec: the `Select` statement node of the `_parser`
module (spec section 3), with the slots `compile_select` and its helpers
read. The set quantifier defaults to ALL and is carried as a string. -/
inductive SelectNode where
  | mk (select_list : SelectList) (from_clause : List TableExpr)
       (where_clause : Option Expr) (group_by_clause : Option (List Expr))
       (having_clause : Option Expr)
       (order_by_clause : Option (List (Expr × String)))
       (limit_clause : Option LimitClause) (set_quantifier : String)

/-- Modelled from the spec: the table-shaped AST nodes of a FROM list —
`TableName`, a nested `Select`, or a `JoinedTable` (spec section 3). -/
inductive TableExpr where
  | tableName (table : String) (aliasName : Option String)
  | select (s : SelectNode)
  | joinedTable (table : TableExpr) (joins : List JoinSpec)

/-- Modelled from the spec: the joins of a `JoinedTable` — `Join(how, table,
on)` or `CrossJoin(table)` (spec section 3). -/
inductive JoinSpec where
  | join (how : String) (table : TableExpr) (onExpr : Expr)
  | crossJoin (table : TableExpr)

end

def SelectNode.select_list : SelectNode → SelectList
  | .mk sl _ _ _ _ _ _ _ => sl

def SelectNode.from_clause : SelectNode → List TableExpr
  | .mk _ fc _ _ _ _ _ _ => fc

def SelectNode.where_clause : SelectNode → Option Expr
  | .mk _ _ w _ _ _ _ _ => w

def SelectNode.group_by_clause : SelectNode → Option (List Expr)
  | .mk _ _ _ gb _ _ _ _ => gb

def SelectNode.having_clause : SelectNode → Option Expr
  | .mk _ _ _ _ hv _ _ _ => hv

def SelectNode.order_by_clause : SelectNode → Option (List (Expr × String))
  | .mk _ _ _ _ _ ob _ _ => ob

def SelectNode.limit_clause : SelectNode → Option LimitClause
  | .mk _ _ _ _ _ _ lc _ => lc

def SelectNode.set_quantifier : SelectNode → String
  | .mk _ _ _ _ _ _ _ sq => sq

/-- Modelled from the spec: the plan node vocabulary of the `_dag` module
(spec section 3): GetTable, Filter, Transform, Aggregate, Sort, Limit,
DropDuplicates, CrossJoin, Join. -/
inductive Plan where
  | getTable (name : String) (aliasName : Option String)
  | filter (input : Plan) (predicate : Expr)
  | transform (input : Plan) (columns : List Expr)
  | aggregate (input : Plan) (aggregates : List Expr)
      (group_by : Option (List Expr))
  | sort (input : Plan) (keys : List (Expr × String))
  | limit (input : Plan) (offset : Nat) (count : Nat)
  | dropDuplicates (input : Plan)
  | crossJoin (left right : Plan)
  | join (left right : Plan) (how : String) (onExpr : Expr)

/-- Modelled from the spec: `_parser.get_selected_column_name`, which is not
under the sources. Spec section 4.3: the group-by alias is the expression's
own name if it is a bare column reference or an aliased derived column,
otherwise absent (forcing a fresh id). -/
def get_selected_column_name : Expr → Option String
  | .columnReference parts => parts.getLast?
  | .derivedColumn _ (some a) => some a
  | _ => none

/-- `DagCompiler._group_by_col_alias`: the selected name when present,
otherwise a fresh temporary column id. -/
def _group_by_col_alias (col : Expr) (g : Nat) : String × Nat :=
  match get_selected_column_name col with
  | some colId => (colId, g)
  | none => (tmpColumn g, g + 1)

/-- The loop of `DagCompiler._normalize_group_by` over the group-by columns:
each yields a `ColumnReference` key and a pre-aggregate `DerivedColumn`. -/
def _normalize_group_by_cols : List Expr → Nat → List Expr × List Expr × Nat
  | [], g => ([], [], g)
  | col :: rest, g =>
      let (colId, g1) := _group_by_col_alias col g
      let (gbs, pres, g2) := _normalize_group_by_cols rest g1
      (Expr.columnReference [colId] :: gbs,
       Expr.derivedColumn col (some colId) :: pres, g2)

/-- `DagCompiler._normalize_group_by`. -/
def _normalize_group_by :
    Option (List Expr) → Nat → Option (List Expr) × List Expr × Nat
  | none, g => (none, [], g)
  | some cols, g =>
      let (gbs, pres, g1) := _normalize_group_by_cols cols g
      (some gbs, pres, g1)

/-- `DagCompiler._filter_pre_transform` (WHERE). -/
def _filter_pre_transform (n : SelectNode) (table : Plan) : Plan :=
  match n.where_clause with
  | none => table
  | some w => .filter table w

/-- `DagCompiler._filter_post_transform` (HAVING). -/
def _filter_post_transform (n : SelectNode) (table : Plan) : Plan :=
  match n.having_clause with
  | none => table
  | some hv => .filter table hv

/-- `DagCompiler._order` (ORDER BY). -/
def _order (n : SelectNode) (table : Plan) : Plan :=
  match n.order_by_clause with
  | none => table
  | some keys => .sort table keys

/-- `DagCompiler._limit`. -/
def _limit (n : SelectNode) (table : Plan) : Plan :=
  match n.limit_clause with
  | none => table
  | some lc => .limit table lc.offset lc.limit

/-- `DagCompiler._drop_duplicates`: uppercase the set quantifier, pass ALL
through, wrap DISTINCT, fail otherwise. -/
def _drop_duplicates (n : SelectNode) (table : Plan) : Except CompileError Plan :=
  let setQuantifier := strUpper n.set_quantifier
  if setQuantifier = "ALL" then pure table
  else if setQuantifier = "DISTINCT" then pure (.dropDuplicates table)
  else throw (.unknownSetQuantifier setQuantifier)

/-- `DagCompiler._transform_table`: the projection/aggregation sandwich. The
asterisk case asserts the absence of a GROUP BY clause. -/
def _transform_table (n : SelectNode) (table : Plan) (g : Nat) :
    Except CompileError (Plan × Nat) :=
  match n.select_list with
  | .asterisk =>
      match n.group_by_clause with
      | none => pure (_order n table, g)
      | some _ => throw .asteriskWithGroupBy
  | .columns cols => do
      let (columns, aggregates, preAggs, g1) ← split_aggregates cols g
      let (groupBy, groupByCols, g2) := _normalize_group_by n.group_by_clause g1
      let preAggs := preAggs ++ groupByCols
      let table := match preAggs with
        | [] => table
        | _ :: _ => Plan.transform table preAggs
      let table := match aggregates with
        | [] => table
        | _ :: _ => Plan.aggregate table aggregates groupBy
      pure (Plan.transform (_order n table) columns, g2)

theorem sizeOf_list_pos {α : Type} [SizeOf α] (l : List α) : 0 < sizeOf l := by
  cases l <;> simp_arith

mutual

/-- `DagCompiler.compile`: handler dispatch with the compile prefix; the one
handler is `compile_select` (the only node class the compiler is given). -/
def compile : SelectNode → Nat → Except CompileError (Plan × Nat)
  | n, g => compile_select n g
termination_by n _ => sizeOf n + 1

/-- `DagCompiler.compile_select`: FROM, WHERE, the projection/aggregation
sandwich, HAVING, DISTINCT, LIMIT — in that order. -/
def compile_select : SelectNode → Nat → Except CompileError (Plan × Nat)
  | n@(.mk _ fc _ _ _ _ _ _), g => do
      let (table, g1) ← compile_from_clause fc g
      let table := _filter_pre_transform n table
      let (table, g2) ← _transform_table n table g1
      let table := _filter_post_transform n table
      let table ← _drop_duplicates n table
      pure (_limit n table, g2)
termination_by n _ => sizeOf n

/-- `DagCompiler.compile_from_clause`: reject an empty FROM list, else fold
the compiled tables left-to-right with `CrossJoin`. -/
def compile_from_clause : List TableExpr → Nat → Except CompileError (Plan × Nat)
  | [], _ => throw .emptyFromClause
  | t :: rest, g => do
      let (result, g1) ← _compile_single_table t g
      foldTables result rest g1
termination_by l _ => sizeOf l
decreasing_by
  all_goals simp_wf
  all_goals first
    | omega
    | (have h1 := sizeOf_list_pos rest; omega)


/-- The `for next in tail` loop of `compile_from_clause`. -/
def foldTables (acc : Plan) : List TableExpr → Nat → Except CompileError (Plan × Nat)
  | [], g => pure (acc, g)
  | t :: rest, g => do
      let (nextTable, g1) ← _compile_single_table t g
      foldTables (Plan.crossJoin acc nextTable) rest g1
termination_by l _ => sizeOf l
decreasing_by
  all_goals simp_wf
  all_goals first
    | omega
    | (have h1 := sizeOf_list_pos rest; omega)


/-- `DagCompiler._compile_single_table`: a `TableName` becomes `GetTable`, a
nested `Select` is compiled recursively, and a `JoinedTable` folds its joins
over the compiled left table. -/
def _compile_single_table : TableExpr → Nat → Except CompileError (Plan × Nat)
  | .tableName t a, g => pure (.getTable t a, g)
  | .select s, g => compile s g
  | .joinedTable t joins, g => do
      let (result, g1) ← compile_from_clause [t] g
      foldJoins result joins g1
termination_by t _ => sizeOf t + 1
decreasing_by
  all_goals simp_wf
  all_goals first
    | omega
    | (have h1 := sizeOf_list_pos joins; omega)


/-- The `for join in table.joins` loop of `_compile_single_table`: a `Join`
is emitted with its kind lowercased, a `CrossJoin` as is. -/
def foldJoins (acc : Plan) : List JoinSpec → Nat → Except CompileError (Plan × Nat)
  | [], g => pure (acc, g)
  | .join how tbl onExpr :: rest, g => do
      let (right, g1) ← compile_from_clause [tbl] g
      foldJoins (Plan.join acc right (strLower how) onExpr) rest g1
  | .crossJoin tbl :: rest, g => do
      let (right, g1) ← compile_from_clause [tbl] g
      foldJoins (Plan.crossJoin acc right) rest g1
termination_by l _ => sizeOf l
decreasing_by
  all_goals simp_wf
  all_goals first
    | omega
    | (have h1 := sizeOf_list_pos rest; omega)


end

/-- `compile_dag(node)` with the default (fresh) id generator. -/
def compile_dag (n : SelectNode) : Except CompileError (Plan × Nat) :=
  compile n 0

/-- `split_aggregate(expr, id_generator)`, the module-level entry point. -/
def split_aggregate (e : Expr) (g : Nat) :
    Except CompileError (Expr × List Expr × List Expr × Nat) :=
  split e g

/-! Analysis functions used to state the splitter's laws. -/

mutual

/-- The number of `GeneralSetFunction` nodes occurring in an expression. -/
def countAgg : Expr → Nat
  | .columnReference _ => 0
  | .integer _ => 0
  | .float _ => 0
  | .string _ => 0
  | .bool _ => 0
  | .null => 0
  | .binaryExpression _ l r => countAgg l + countAgg r
  | .unaryExpression _ e => countAgg e
  | .functionCall _ args => countAggList args
  | .caseExpression cs els => countAggPairs cs + countAggOpt els
  | .cast v _ => countAgg v
  | .generalSetFunction _ v => 1 + countAgg v
  | .asterisk => 0
  | .derivedColumn v _ => countAgg v

def countAggList : List Expr → Nat
  | [] => 0
  | e :: rest => countAgg e + countAggList rest

def countAggPairs : List (Expr × Expr) → Nat
  | [] => 0
  | (c, r) :: rest => countAgg c + countAgg r + countAggPairs rest

def countAggOpt : Option Expr → Nat
  | none => 0
  | some e => countAgg e

end

mutual

/-- Whether every node of an expression belongs to a class for which
`SplitAggregateTransformer` defines a split handler (so the dispatch of
`split` never fails on it). -/
def handled : Expr → Bool
  | .columnReference _ => true
  | .integer _ => true
  | .float _ => true
  | .binaryExpression _ l r => handled l && handled r
  | .unaryExpression _ e => handled e
  | .functionCall _ args => handledList args
  | .generalSetFunction _ v => handled v
  | .derivedColumn v _ => handled v
  | .string _ => false
  | .bool _ => false
  | .null => false
  | .caseExpression _ _ => false
  | .cast _ _ => false
  | .asterisk => false

def handledList : List Expr → Bool
  | [] => true
  | e :: rest => handled e && handledList rest

end

mutual

/-- Whether a `GeneralSetFunction` occurs somewhere inside the argument of
another `GeneralSetFunction` of the expression. -/
def hasNested : Expr → Bool
  | .columnReference _ => false
  | .integer _ => false
  | .float _ => false
  | .string _ => false
  | .bool _ => false
  | .null => false
  | .binaryExpression _ l r => hasNested l || hasNested r
  | .unaryExpression _ e => hasNested e
  | .functionCall _ args => hasNestedList args
  | .caseExpression cs els => hasNestedPairs cs || hasNestedOpt els
  | .cast v _ => hasNested v
  | .generalSetFunction _ v => decide (0 < countAgg v) || hasNested v
  | .asterisk => false
  | .derivedColumn v _ => hasNested v

def hasNestedList : List Expr → Bool
  | [] => false
  | e :: rest => hasNested e || hasNestedList rest

def hasNestedPairs : List (Expr × Expr) → Bool
  | [] => false
  | (c, r) :: rest => hasNested c || hasNested r || hasNestedPairs rest

def hasNestedOpt : Option Expr → Bool
  | none => false
  | some e => hasNested e

end

/-- Whether every `Join` node of a plan carries a join kind that is a fixed
point of lowercasing, i.e. already all-lowercase. -/
def lowercaseHows : Plan → Bool
  | .getTable _ _ => true
  | .filter p _ => lowercaseHows p
  | .transform p _ => lowercaseHows p
  | .aggregate p _ _ => lowercaseHows p
  | .sort p _ => lowercaseHows p
  | .limit p _ _ => lowercaseHows p
  | .dropDuplicates p => lowercaseHows p
  | .crossJoin l r => lowercaseHows l && lowercaseHows r
  | .join l r how _ => (strLower how == how) && (lowercaseHows l && lowercaseHows r)

/-! Generic facts about `Except`, characters and lowercasing. -/

theorem except_pure_eq {ε α : Type} (a : α) : (pure a : Except ε α) = Except.ok a := rfl

theorem except_throw_eq {ε α : Type} (er : ε) : (throw er : Except ε α) = Except.error er := rfl

theorem except_bind_ok {ε α β : Type} (a : α) (f : α → Except ε β) :
    (Except.ok a : Except ε α) >>= f = f a := rfl

theorem except_bind_error {ε α β : Type} (er : ε) (f : α → Except ε β) :
    (Except.error er : Except ε α) >>= f = Except.error er := rfl

theorem char_toNat_ofNat_valid (n : Nat) (h : n.isValidChar) :
    (Char.ofNat n).toNat = n := by
  simp only [Char.ofNat, h, dif_pos, Char.ofNatAux, Char.toNat]
  rfl

theorem char_toLower_fix (c : Char) (h : ¬(c.toNat ≥ 65 ∧ c.toNat ≤ 90)) :
    c.toLower = c := by
  unfold Char.toLower
  rw [if_neg h]

theorem char_toLower_idem (c : Char) : (c.toLower).toLower = c.toLower := by
  by_cases h : c.toNat ≥ 65 ∧ c.toNat ≤ 90
  · have h1 : c.toLower = Char.ofNat (c.toNat + 32) := by
      unfold Char.toLower
      rw [if_pos h]
    have hv : (c.toNat + 32).isValidChar := by
      unfold Nat.isValidChar
      left
      omega
    rw [h1]
    apply char_toLower_fix
    rw [char_toNat_ofNat_valid _ hv]
    omega
  · rw [char_toLower_fix c h]
    exact char_toLower_fix c h

theorem strLower_idem (s : String) : strLower (strLower s) = strLower s := by
  simp [strLower, List.map_map, Function.comp_def, char_toLower_idem]

/-! Splitter lemmas: the split of an expression counts aggregates exactly,
scalar expressions are fixed points, handled expressions only ever fail with
the nested-aggregate error, and nested aggregates never split successfully. -/

def splitOkCountP (e : Expr) (g : Nat) : Prop :=
  ∀ e1 aggs preAggs g1, split e g = .ok (e1, aggs, preAggs, g1) →
    aggs.length = countAgg e ∧ preAggs.length = countAgg e ∧ countAgg e1 = 0

def splitArgsOkCountP (l : List Expr) (g : Nat) : Prop :=
  ∀ l1 aggs preAggs g1, splitArgs l g = .ok (l1, aggs, preAggs, g1) →
    aggs.length = countAggList l ∧ preAggs.length = countAggList l ∧ countAggList l1 = 0

theorem split_ok_count : ∀ (e : Expr) (g : Nat), splitOkCountP e g := by
  apply split.induct splitOkCountP splitArgsOkCountP
  · -- derivedColumn
    intro value aliasName g ih e1 aggs preAggs g1 h
    simp only [split] at h
    cases hv : split value g with
    | error er => rw [hv] at h; simp [except_bind_error] at h
    | ok res =>
      obtain ⟨v1, a0, p0, g0⟩ := res
      rw [hv] at h
      simp only [except_bind_ok, except_pure_eq, Except.ok.injEq, Prod.mk.injEq] at h
      obtain ⟨rfl, rfl, rfl, rfl⟩ := h
      obtain ⟨h1, h2, h3⟩ := ih v1 a0 p0 g0 hv
      simp [countAgg, h1, h2, h3]
  · -- columnReference
    intro parts g e1 aggs preAggs g1 h
    simp only [split, except_pure_eq, Except.ok.injEq, Prod.mk.injEq] at h
    obtain ⟨rfl, rfl, rfl, rfl⟩ := h
    simp [countAgg]
  · -- generalSetFunction
    intro name value g ih e1 aggs preAggs g1 h
    simp only [split] at h
    cases hv : split value g with
    | error er => rw [hv] at h; simp [except_bind_error] at h
    | ok res =>
      obtain ⟨v1, a0, p0, g0⟩ := res
      rw [hv] at h
      simp only [except_bind_ok] at h
      obtain ⟨h1, h2, h3⟩ := ih v1 a0 p0 g0 hv
      cases a0 with
      | cons x xs => simp [except_throw_eq] at h
      | nil =>
        cases p0 with
        | cons y ys => simp [except_throw_eq] at h
        | nil =>
          simp only [except_pure_eq, Except.ok.injEq, Prod.mk.injEq] at h
          obtain ⟨rfl, rfl, rfl, rfl⟩ := h
          have h0 : countAgg value = 0 := by simpa using h1.symm
          simp [countAgg, ref, h0]
  · -- binaryExpression
    intro op l r g ihl ihr e1 aggs preAggs g1 h
    simp only [split] at h
    cases hl : split l g with
    | error er => rw [hl] at h; simp [except_bind_error] at h
    | ok res =>
      obtain ⟨l1, la, lp, gl⟩ := res
      rw [hl] at h
      simp only [except_bind_ok] at h
      cases hr : split r gl with
      | error er => rw [hr] at h; simp [except_bind_error] at h
      | ok res2 =>
        obtain ⟨r1, ra, rp, gr⟩ := res2
        rw [hr] at h
        simp only [except_bind_ok, except_pure_eq, Except.ok.injEq, Prod.mk.injEq] at h
        obtain ⟨rfl, rfl, rfl, rfl⟩ := h
        obtain ⟨h1, h2, h3⟩ := ihl l1 la lp gl hl
        obtain ⟨h4, h5, h6⟩ := ihr gl r1 ra rp gr hr
        simp [countAgg, h1, h2, h3, h4, h5, h6]
  · -- unaryExpression
    intro op e g ih e1 aggs preAggs g1 h
    simp only [split] at h
    cases hv : split e g with
    | error er => rw [hv] at h; simp [except_bind_error] at h
    | ok res =>
      obtain ⟨v1, a0, p0, g0⟩ := res
      rw [hv] at h
      simp only [except_bind_ok, except_pure_eq, Except.ok.injEq, Prod.mk.injEq] at h
      obtain ⟨rfl, rfl, rfl, rfl⟩ := h
      obtain ⟨h1, h2, h3⟩ := ih v1 a0 p0 g0 hv
      simp [countAgg, h1, h2, h3]
  · -- functionCall
    intro name args g ih e1 aggs preAggs g1 h
    simp only [split] at h
    cases hv : splitArgs args g with
    | error er => rw [hv] at h; simp [except_bind_error] at h
    | ok res =>
      obtain ⟨as1, a0, p0, g0⟩ := res
      rw [hv] at h
      simp only [except_bind_ok, except_pure_eq, Except.ok.injEq, Prod.mk.injEq] at h
      obtain ⟨rfl, rfl, rfl, rfl⟩ := h
      obtain ⟨h1, h2, h3⟩ := ih as1 a0 p0 g0 hv
      simp [countAgg, h1, h2, h3]
  · -- integer
    intro v g e1 aggs preAggs g1 h
    simp only [split, except_pure_eq, Except.ok.injEq, Prod.mk.injEq] at h
    obtain ⟨rfl, rfl, rfl, rfl⟩ := h
    simp [countAgg]
  · -- float
    intro v g e1 aggs preAggs g1 h
    simp only [split, except_pure_eq, Except.ok.injEq, Prod.mk.injEq] at h
    obtain ⟨rfl, rfl, rfl, rfl⟩ := h
    simp [countAgg]
  · -- string
    intro v g e1 aggs preAggs g1 h
    simp [split, except_throw_eq] at h
  · -- bool
    intro v g e1 aggs preAggs g1 h
    simp [split, except_throw_eq] at h
  · -- null
    intro g e1 aggs preAggs g1 h
    simp [split, except_throw_eq] at h
  · -- caseExpression
    intro cs els g e1 aggs preAggs g1 h
    simp [split, except_throw_eq] at h
  · -- cast
    intro v t g e1 aggs preAggs g1 h
    simp [split, except_throw_eq] at h
  · -- asterisk
    intro g e1 aggs preAggs g1 h
    simp [split, except_throw_eq] at h
  · -- splitArgs nil
    intro g l1 aggs preAggs g1 h
    simp only [splitArgs, except_pure_eq, Except.ok.injEq, Prod.mk.injEq] at h
    obtain ⟨rfl, rfl, rfl, rfl⟩ := h
    simp [countAggList]
  · -- splitArgs cons
    intro e rest g ihe ihrest l1 aggs preAggs g1 h
    simp only [splitArgs] at h
    cases he : split e g with
    | error er => rw [he] at h; simp [except_bind_error] at h
    | ok res =>
      obtain ⟨e1, a0, p0, g0⟩ := res
      rw [he] at h
      simp only [except_bind_ok] at h
      cases hrest : splitArgs rest g0 with
      | error er => rw [hrest] at h; simp [except_bind_error] at h
      | ok res2 =>
        obtain ⟨rest1, a2, p2, g2⟩ := res2
        rw [hrest] at h
        simp only [except_bind_ok, except_pure_eq, Except.ok.injEq, Prod.mk.injEq] at h
        obtain ⟨rfl, rfl, rfl, rfl⟩ := h
        obtain ⟨h1, h2, h3⟩ := ihe e1 a0 p0 g0 he
        obtain ⟨h4, h5, h6⟩ := ihrest g0 rest1 a2 p2 g2 hrest
        simp [countAggList, h1, h2, h3, h4, h5, h6]



def splitFixP (e : Expr) (g : Nat) : Prop :=
  handled e = true → countAgg e = 0 → split e g = .ok (e, [], [], g)

def splitArgsFixP (l : List Expr) (g : Nat) : Prop :=
  handledList l = true → countAggList l = 0 → splitArgs l g = .ok (l, [], [], g)

theorem split_fix : ∀ (e : Expr) (g : Nat), splitFixP e g := by
  apply split.induct splitFixP splitArgsFixP
  · -- derivedColumn
    intro value aliasName g ih h1 h2
    simp only [handled] at h1
    simp only [countAgg] at h2
    simp [split, ih h1 h2, except_bind_ok, except_pure_eq]
  · intro parts g h1 h2
    simp [split, except_pure_eq]
  · -- generalSetFunction
    intro name value g ih h1 h2
    exfalso
    simp [countAgg] at h2
  · -- binaryExpression
    intro op l r g ihl ihr h1 h2
    simp only [handled, Bool.and_eq_true] at h1
    simp only [countAgg] at h2
    have hcl : countAgg l = 0 := by omega
    have hcr : countAgg r = 0 := by omega
    simp [split, ihl h1.1 hcl, ihr g h1.2 hcr, except_bind_ok, except_pure_eq]
  · -- unaryExpression
    intro op e g ih h1 h2
    simp only [handled] at h1
    simp only [countAgg] at h2
    simp [split, ih h1 h2, except_bind_ok, except_pure_eq]
  · -- functionCall
    intro name args g ih h1 h2
    simp only [handled] at h1
    simp only [countAgg] at h2
    simp [split, ih h1 h2, except_bind_ok, except_pure_eq]
  · intro v g h1 h2
    simp [split, except_pure_eq]
  · intro v g h1 h2
    simp [split, except_pure_eq]
  · intro v g h1 h2
    simp [handled] at h1
  · intro v g h1 h2
    simp [handled] at h1
  · intro g h1 h2
    simp [handled] at h1
  · intro cs els g h1 h2
    simp [handled] at h1
  · intro v t g h1 h2
    simp [handled] at h1
  · intro g h1 h2
    simp [handled] at h1
  · intro g h1 h2
    simp [splitArgs, except_pure_eq]
  · -- splitArgs cons
    intro e rest g ihe ihrest h1 h2
    simp only [handledList, Bool.and_eq_true] at h1
    simp only [countAggList] at h2
    have hce : countAgg e = 0 := by omega
    have hcr : countAggList rest = 0 := by omega
    simp [splitArgs, ihe h1.1 hce, ihrest g h1.2 hcr, except_bind_ok, except_pure_eq]

def splitErrP (e : Expr) (g : Nat) : Prop :=
  handled e = true → ∀ er, split e g = .error er → er = .nestedAggregate

def splitArgsErrP (l : List Expr) (g : Nat) : Prop :=
  handledList l = true → ∀ er, splitArgs l g = .error er → er = .nestedAggregate

theorem split_err : ∀ (e : Expr) (g : Nat), splitErrP e g := by
  apply split.induct splitErrP splitArgsErrP
  · -- derivedColumn
    intro value aliasName g ih h1 er h
    simp only [handled] at h1
    simp only [split] at h
    cases hv : split value g with
    | error er0 =>
      rw [hv] at h
      simp only [except_bind_error, Except.error.injEq] at h
      subst h
      exact ih h1 er0 hv
    | ok res =>
      obtain ⟨v1, a0, p0, g0⟩ := res
      rw [hv] at h
      simp [except_bind_ok, except_pure_eq] at h
  · intro parts g h1 er h
    simp [split, except_pure_eq] at h
  · -- generalSetFunction
    intro name value g ih h1 er h
    simp only [handled] at h1
    simp only [split] at h
    cases hv : split value g with
    | error er0 =>
      rw [hv] at h
      simp only [except_bind_error, Except.error.injEq] at h
      subst h
      exact ih h1 er0 hv
    | ok res =>
      obtain ⟨v1, a0, p0, g0⟩ := res
      rw [hv] at h
      simp only [except_bind_ok] at h
      cases a0 with
      | cons x xs =>
        simp only [except_throw_eq, Except.error.injEq] at h
        exact h.symm
      | nil =>
        cases p0 with
        | cons y ys =>
          simp only [except_throw_eq, Except.error.injEq] at h
          exact h.symm
        | nil => simp [except_pure_eq] at h
  · -- binaryExpression
    intro op l r g ihl ihr h1 er h
    simp only [handled, Bool.and_eq_true] at h1
    simp only [split] at h
    cases hl : split l g with
    | error er0 =>
      rw [hl] at h
      simp only [except_bind_error, Except.error.injEq] at h
      subst h
      exact ihl h1.1 er0 hl
    | ok res =>
      obtain ⟨l1, la, lp, gl⟩ := res
      rw [hl] at h
      simp only [except_bind_ok] at h
      cases hr : split r gl with
      | error er0 =>
        rw [hr] at h
        simp only [except_bind_error, Except.error.injEq] at h
        subst h
        exact ihr gl h1.2 er0 hr
      | ok res2 =>
        obtain ⟨r1, ra, rp, gr⟩ := res2
        rw [hr] at h
        simp [except_bind_ok, except_pure_eq] at h
  · -- unaryExpression
    intro op e g ih h1 er h
    simp only [handled] at h1
    simp only [split] at h
    cases hv : split e g with
    | error er0 =>
      rw [hv] at h
      simp only [except_bind_error, Except.error.injEq] at h
      subst h
      exact ih h1 er0 hv
    | ok res =>
      obtain ⟨v1, a0, p0, g0⟩ := res
      rw [hv] at h
      simp [except_bind_ok, except_pure_eq] at h
  · -- functionCall
    intro name args g ih h1 er h
    simp only [handled] at h1
    simp only [split] at h
    cases hv : splitArgs args g with
    | error er0 =>
      rw [hv] at h
      simp only [except_bind_error, Except.error.injEq] at h
      subst h
      exact ih h1 er0 hv
    | ok res =>
      obtain ⟨as1, a0, p0, g0⟩ := res
      rw [hv] at h
      simp [except_bind_ok, except_pure_eq] at h
  · intro v g h1 er h
    simp [split, except_pure_eq] at h
  · intro v g h1 er h
    simp [split, except_pure_eq] at h
  · intro v g h1 er h
    simp [handled] at h1
  · intro v g h1 er h
    simp [handled] at h1
  · intro g h1 er h
    simp [handled] at h1
  · intro cs els g h1 er h
    simp [handled] at h1
  · intro v t g h1 er h
    simp [handled] at h1
  · intro g h1 er h
    simp [handled] at h1
  · intro g h1 er h
    simp [splitArgs, except_pure_eq] at h
  · -- splitArgs cons
    intro e rest g ihe ihrest h1 er h
    simp only [handledList, Bool.and_eq_true] at h1
    simp only [splitArgs] at h
    cases he : split e g with
    | error er0 =>
      rw [he] at h
      simp only [except_bind_error, Except.error.injEq] at h
      subst h
      exact ihe h1.1 er0 he
    | ok res =>
      obtain ⟨e1, a0, p0, g0⟩ := res
      rw [he] at h
      simp only [except_bind_ok] at h
      cases hrest : splitArgs rest g0 with
      | error er0 =>
        rw [hrest] at h
        simp only [except_bind_error, Except.error.injEq] at h
        subst h
        exact ihrest g0 h1.2 er0 hrest
      | ok res2 =>
        obtain ⟨rest1, a2, p2, g2⟩ := res2
        rw [hrest] at h
        simp [except_bind_ok, except_pure_eq] at h

def splitNestedP (e : Expr) (g : Nat) : Prop :=
  hasNested e = true → ∀ r, split e g ≠ .ok r

def splitArgsNestedP (l : List Expr) (g : Nat) : Prop :=
  hasNestedList l = true → ∀ r, splitArgs l g ≠ .ok r

theorem split_nested_not_ok : ∀ (e : Expr) (g : Nat), splitNestedP e g := by
  apply split.induct splitNestedP splitArgsNestedP
  · -- derivedColumn
    intro value aliasName g ih h1 r h
    simp only [hasNested] at h1
    simp only [split] at h
    cases hv : split value g with
    | error er0 => rw [hv] at h; simp [except_bind_error] at h
    | ok res => exact ih h1 res hv
  · intro parts g h1 r h
    simp [hasNested] at h1
  · -- generalSetFunction
    intro name value g ih h1 r h
    simp only [hasNested, Bool.or_eq_true, decide_eq_true_eq] at h1
    simp only [split] at h
    cases hv : split value g with
    | error er0 => rw [hv] at h; simp [except_bind_error] at h
    | ok res =>
      obtain ⟨v1, a0, p0, g0⟩ := res
      cases h1 with
      | inr hn => exact ih hn _ hv
      | inl hc =>
        obtain ⟨hlen, _, _⟩ := split_ok_count value g v1 a0 p0 g0 hv
        rw [hv] at h
        simp only [except_bind_ok] at h
        cases a0 with
        | nil => simp at hlen; omega
        | cons x xs => simp [except_throw_eq] at h
  · -- binaryExpression
    intro op l r g ihl ihr h1 r0 h
    simp only [hasNested, Bool.or_eq_true] at h1
    simp only [split] at h
    cases hl : split l g with
    | error er0 => rw [hl] at h; simp [except_bind_error] at h
    | ok res =>
      cases h1 with
      | inl hn => exact ihl hn res hl
      | inr hn =>
        obtain ⟨l1, la, lp, gl⟩ := res
        rw [hl] at h
        simp only [except_bind_ok] at h
        cases hr : split r gl with
        | error er0 => rw [hr] at h; simp [except_bind_error] at h
        | ok res2 => exact ihr gl hn res2 hr
  · -- unaryExpression
    intro op e g ih h1 r h
    simp only [hasNested] at h1
    simp only [split] at h
    cases hv : split e g with
    | error er0 => rw [hv] at h; simp [except_bind_error] at h
    | ok res => exact ih h1 res hv
  · -- functionCall
    intro name args g ih h1 r h
    simp only [hasNested] at h1
    simp only [split] at h
    cases hv : splitArgs args g with
    | error er0 => rw [hv] at h; simp [except_bind_error] at h
    | ok res => exact ih h1 res hv
  · intro v g h1 r h
    simp [hasNested] at h1
  · intro v g h1 r h
    simp [hasNested] at h1
  · intro v g h1 r h
    simp [split, except_throw_eq] at h
  · intro v g h1 r h
    simp [split, except_throw_eq] at h
  · intro g h1 r h
    simp [split, except_throw_eq] at h
  · intro cs els g h1 r h
    simp [split, except_throw_eq] at h
  · intro v t g h1 r h
    simp [split, except_throw_eq] at h
  · intro g h1 r h
    simp [split, except_throw_eq] at h
  · intro g h1 r h
    simp [hasNestedList] at h1
  · -- splitArgs cons
    intro e rest g ihe ihrest h1 r h
    simp only [hasNestedList, Bool.or_eq_true] at h1
    simp only [splitArgs] at h
    cases he : split e g with
    | error er0 => rw [he] at h; simp [except_bind_error] at h
    | ok res =>
      cases h1 with
      | inl hn => exact ihe hn res he
      | inr hn =>
        obtain ⟨e1, a0, p0, g0⟩ := res
        rw [he] at h
        simp only [except_bind_ok] at h
        cases hrest : splitArgs rest g0 with
        | error er0 => rw [hrest] at h; simp [except_bind_error] at h
        | ok res2 => exact ihrest g0 hn res2 hrest

/-! Concrete queries and plans used by the claims. -/

/-- The AST of `SELECT SUM(a) as s FROM t`: select list
`[DerivedColumn(GeneralSetFunction(SUM, ColumnReference([a])), alias=s)]`,
from clause `[TableName(t)]`, all other clauses absent, set quantifier ALL. -/
def selectSumQuery : SelectNode := .mk
  (.columns [.derivedColumn
    (.generalSetFunction "SUM" (.columnReference ["a"])) (some "s")])
  [.tableName "t" none] none none none none none "ALL"

/-- The expected plan for `SELECT SUM(a) as s FROM t`. -/
def planSumQuery : Plan := .transform
  (.aggregate
    (.transform (.getTable "t" none)
      [.derivedColumn (.columnReference ["a"]) (some "$0")])
    [.derivedColumn (.generalSetFunction "SUM" (.columnReference ["$0"]))
      (some "$1")]
    none)
  [.derivedColumn (.columnReference ["$1"]) (some "s")]

/-- C1: compiling the Select AST of `SELECT SUM(a) as s FROM t` with a fresh
default id generator yields exactly
`Transform(Aggregate(Transform(GetTable(t), [a as $0]), [SUM($0) as $1],
group_by=None), [$1 as s])`, consuming exactly the two ids 0 then 1
(the pre-aggregate column `$0` before the aggregate column `$1`). -/
theorem compile_sum_query : compile_dag selectSumQuery = .ok (planSumQuery, 2) := by
  simp [compile_dag, compile, compile_select, compile_from_clause, foldTables,
    _compile_single_table, _transform_table, _filter_pre_transform,
    _filter_post_transform, _drop_duplicates, _order, _limit,
    selectSumQuery, planSumQuery, split_aggregates, split, _normalize_group_by,
    tmpColumn, ref, strUpper, SelectNode.select_list, SelectNode.from_clause,
    SelectNode.where_clause, SelectNode.group_by_clause,
    SelectNode.having_clause, SelectNode.order_by_clause,
    SelectNode.limit_clause, SelectNode.set_quantifier]
  rfl

/-- C2 counterexample: `Null` contains no `GeneralSetFunction`, yet
`split_aggregate` does not return `(Null, [], [])` — the splitter has no
handler for the `Null` node class, so the dispatch fails. -/
theorem split_null_no_handler :
    split_aggregate Expr.null 0 = .error (.noHandler "null") ∧
    split_aggregate Expr.null 0 ≠ .ok (Expr.null, [], [], 0) := by
  refine ⟨rfl, ?_⟩
  intro h
  simp [split_aggregate, split, except_throw_eq] at h

/-- C2 (amended): for every expression built only from node classes that have
split handlers — `ColumnReference`, `Integer`, `Float`, `BinaryExpression`,
`UnaryExpression`, `FunctionCall`, `DerivedColumn` (and aggregate-free) —
`split_aggregate` succeeds, returns the expression unchanged with empty
aggregate and pre-aggregate lists, and draws no ids from the generator.
Expressions containing `String`, `Bool`, `Null`, `CaseExpression` or `Cast`
nodes instead fail the handler dispatch. -/
theorem split_scalar_fixpoint (e : Expr) (g : Nat)
    (h1 : handled e = true) (h2 : countAgg e = 0) :
    split_aggregate e g = .ok (e, [], [], g) :=
  split_fix e g h1 h2

theorem split_scalar_fixpoint_witness :
    handled (Expr.binaryExpression "+" (.columnReference ["a"])
      (.functionCall "ABS" [.integer "1", .unaryExpression "-"
        (.columnReference ["b"])])) = true ∧
    countAgg (Expr.binaryExpression "+" (.columnReference ["a"])
      (.functionCall "ABS" [.integer "1", .unaryExpression "-"
        (.columnReference ["b"])])) = 0 ∧
    split_aggregate (Expr.binaryExpression "+" (.columnReference ["a"])
      (.functionCall "ABS" [.integer "1", .unaryExpression "-"
        (.columnReference ["b"])])) 5 =
      .ok (Expr.binaryExpression "+" (.columnReference ["a"])
        (.functionCall "ABS" [.integer "1", .unaryExpression "-"
          (.columnReference ["b"])]), [], [], 5) :=
  ⟨rfl, rfl, split_scalar_fixpoint _ 5 rfl rfl⟩

/-- C3 counterexample: splitting `GeneralSetFunction(COUNT, Asterisk)` — the
`COUNT(*)` form — fails: `split_general_set_function` recurses on the
`Asterisk` argument, for which no split handler exists. -/
theorem split_count_asterisk_fails :
    split_aggregate (.generalSetFunction "COUNT" .asterisk) 0 =
      .error (.noHandler "asterisk") := rfl

/-- C3 (amended): splitting `COUNT(*)` fails with the missing-handler error
(there is no `Asterisk` split handler); splitting a `GeneralSetFunction`
whose argument is a handled aggregate-free expression (for example a
`ColumnReference`) succeeds with a rewritten reference to a fresh alias,
exactly one aggregate entry and one pre-aggregate entry. -/
theorem split_general_set_function_of_scalar (name : String) (e : Expr)
    (g : Nat) (h1 : handled e = true) (h2 : countAgg e = 0) :
    split_aggregate (.generalSetFunction name e) g =
      .ok (ref (tmpColumn (g + 1)),
        [.derivedColumn (.generalSetFunction name (ref (tmpColumn g)))
          (some (tmpColumn (g + 1)))],
        [.derivedColumn e (some (tmpColumn g))], g + 2) := by
  have hfix : split e g = .ok (e, [], [], g) := split_fix e g h1 h2
  show split (.generalSetFunction name e) g = _
  simp only [split]
  rw [hfix]
  simp [except_bind_ok, except_pure_eq]

theorem split_general_set_function_of_scalar_witness :
    handled (Expr.columnReference ["a"]) = true ∧
    split_aggregate (.generalSetFunction "COUNT" (.columnReference ["a"])) 0 =
      .ok (ref "$1",
        [.derivedColumn (.generalSetFunction "COUNT" (ref "$0")) (some "$1")],
        [.derivedColumn (.columnReference ["a"]) (some "$0")], 2) :=
  ⟨rfl, split_general_set_function_of_scalar "COUNT" _ 0 rfl rfl⟩

/-- C4 counterexample: `SUM(SUM(Null))` contains a `GeneralSetFunction`
inside the argument of another, and `split_aggregate` fails — but with the
missing-handler error for `Null`, not with the nested-aggregate error. -/
theorem split_nested_null_error_kind :
    split_aggregate (.generalSetFunction "SUM"
      (.generalSetFunction "SUM" Expr.null)) 0 = .error (.noHandler "null") ∧
    CompileError.noHandler "null" ≠ CompileError.nestedAggregate :=
  ⟨rfl, by decide⟩

/-- C4 (amended): for every expression with a `GeneralSetFunction` inside the
argument of another `GeneralSetFunction`, `split_aggregate` fails; when every
node class of the expression has a split handler the failure is the
nested-aggregate error (the source raises it when the recursive split of the
aggregate argument returns a non-empty aggregate or pre-aggregate list —
equivalent, on success, to a non-empty aggregate list, since both lists have
the same length). -/
theorem split_nested_rejected (e : Expr) (g : Nat)
    (h1 : hasNested e = true) (h2 : handled e = true) :
    split_aggregate e g = .error .nestedAggregate := by
  cases hres : split e g with
  | ok r => exact absurd hres (split_nested_not_ok e g h1 r)
  | error er =>
    have her : er = .nestedAggregate := split_err e g h2 er hres
    show split e g = _
    rw [hres, her]

theorem split_nested_rejected_witness :
    hasNested (Expr.generalSetFunction "SUM"
      (.generalSetFunction "SUM" (.columnReference ["a"]))) = true ∧
    handled (Expr.generalSetFunction "SUM"
      (.generalSetFunction "SUM" (.columnReference ["a"]))) = true ∧
    split_aggregate (.generalSetFunction "SUM"
      (.generalSetFunction "SUM" (.columnReference ["a"]))) 0 =
      .error .nestedAggregate :=
  ⟨rfl, rfl, split_nested_rejected _ 0 rfl rfl⟩

/-- C5: whenever `split_aggregate` succeeds on an expression, the length of
the returned aggregate list equals the number of `GeneralSetFunction` nodes
of the expression, and the rewritten expression contains none. -/
theorem split_count_invariance (e : Expr) (g : Nat) (e1 : Expr)
    (aggs preAggs : List Expr) (g1 : Nat)
    (h : split_aggregate e g = .ok (e1, aggs, preAggs, g1)) :
    aggs.length = countAgg e ∧ countAgg e1 = 0 := by
  obtain ⟨h1, h2, h3⟩ := split_ok_count e g e1 aggs preAggs g1 h
  exact ⟨h1, h3⟩

theorem split_count_invariance_witness :
    [Expr.derivedColumn (.generalSetFunction "SUM" (ref "$0")) (some "$1")].length
      = countAgg (.generalSetFunction "SUM" (.columnReference ["a"])) ∧
    countAgg (ref "$1") = 0 :=
  split_count_invariance (.generalSetFunction "SUM" (.columnReference ["a"]))
    0 (ref "$1")
    [.derivedColumn (.generalSetFunction "SUM" (ref "$0")) (some "$1")]
    [.derivedColumn (.columnReference ["a"]) (some "$0")] 2 rfl

/-- Wrap a plan in the HAVING `Filter` exactly when the clause is present
(the shape of `_filter_post_transform`). -/
def havingFilterIfPresent : Option Expr → Plan → Plan
  | none, p => p
  | some hv, p => .filter p hv

/-- Wrap a plan in `DropDuplicates` exactly when the quantifier uppercases
to DISTINCT. -/
def dropDuplicatesIfDistinct (q : String) (p : Plan) : Plan :=
  if strUpper q = "DISTINCT" then .dropDuplicates p else p

/-- Wrap a plan in `Limit` exactly when the clause is present (the shape of
`_limit`). -/
def limitIfPresent : Option LimitClause → Plan → Plan
  | none, p => p
  | some lc, p => .limit p lc.offset lc.limit

theorem transform_table_columns_shape (n : SelectNode) (t : Plan) (g : Nat)
    (cols : List Expr) (hsl : n.select_list = .columns cols)
    (p : Plan) (g1 : Nat) (h : _transform_table n t g = .ok (p, g1)) :
    ∃ inner pcols, p = .transform inner pcols := by
  simp only [_transform_table, hsl] at h
  cases hsp : split_aggregates cols g with
  | error er => rw [hsp] at h; simp [except_bind_error] at h
  | ok res =>
    obtain ⟨columns, aggs, pres, gs⟩ := res
    rw [hsp] at h
    simp only [except_bind_ok, except_pure_eq, Except.ok.injEq, Prod.mk.injEq] at h
    obtain ⟨hp, _⟩ := h
    exact ⟨_, _, hp.symm⟩

theorem drop_duplicates_cases (n : SelectNode) (t r : Plan)
    (h : _drop_duplicates n t = .ok r) :
    (strUpper n.set_quantifier = "ALL" ∧ r = t) ∨
    (strUpper n.set_quantifier = "DISTINCT" ∧ r = .dropDuplicates t) := by
  have h2 : (if strUpper n.set_quantifier = "ALL" then (pure t : Except CompileError Plan)
      else if strUpper n.set_quantifier = "DISTINCT" then pure (.dropDuplicates t)
      else throw (.unknownSetQuantifier (strUpper n.set_quantifier))) = .ok r := h
  split at h2
  · left
    simp only [except_pure_eq, Except.ok.injEq] at h2
    exact ⟨by assumption, h2.symm⟩
  · split at h2
    · right
      simp only [except_pure_eq, Except.ok.injEq] at h2
      exact ⟨by assumption, h2.symm⟩
    · simp [except_throw_eq] at h2

/-- C6: for every Select with a non-Asterisk select list, a successful
compile nests the optional outer stages in the fixed order from the root
inward — Limit (present iff the limit clause is), then DropDuplicates
(present iff the set quantifier uppercases to DISTINCT), then the HAVING
Filter (present iff the having clause is), then the final projection
Transform; in particular the HAVING Filter sits above the final Transform.
The set quantifier of a successful compile uppercases to ALL or DISTINCT. -/
theorem compile_select_outer_stage_order :
    ∀ (n : SelectNode) (cols : List Expr) (g : Nat) (p : Plan) (g2 : Nat),
    n.select_list = .columns cols →
    compile_select n g = .ok (p, g2) →
    (strUpper n.set_quantifier = "ALL" ∨ strUpper n.set_quantifier = "DISTINCT") ∧
    ∃ inner pcols,
      p = limitIfPresent n.limit_clause
        (dropDuplicatesIfDistinct n.set_quantifier
          (havingFilterIfPresent n.having_clause (.transform inner pcols))) := by
  intro n cols g p g2 hsl h
  obtain ⟨sl, fc, w, gb, hv, ob, lc, sq⟩ := n
  simp only [compile_select] at h
  cases hfc : compile_from_clause fc g with
  | error er => rw [hfc] at h; simp [except_bind_error] at h
  | ok res =>
    obtain ⟨t1, g1⟩ := res
    rw [hfc] at h
    simp only [except_bind_ok] at h
    cases htt : _transform_table (.mk sl fc w gb hv ob lc sq)
        (_filter_pre_transform (.mk sl fc w gb hv ob lc sq) t1) g1 with
    | error er => rw [htt] at h; simp [except_bind_error] at h
    | ok res2 =>
      obtain ⟨t3, g3⟩ := res2
      rw [htt] at h
      simp only [except_bind_ok] at h
      obtain ⟨inner, pcols, hp3⟩ :=
        transform_table_columns_shape _ _ _ cols hsl _ _ htt
      cases hdd : _drop_duplicates (.mk sl fc w gb hv ob lc sq)
          (_filter_post_transform (.mk sl fc w gb hv ob lc sq) t3) with
      | error er => rw [hdd] at h; simp [except_bind_error] at h
      | ok t5 =>
        rw [hdd] at h
        simp only [except_bind_ok, except_pure_eq, Except.ok.injEq,
          Prod.mk.injEq] at h
        obtain ⟨hpp, hgg⟩ := h
        rcases drop_duplicates_cases _ _ _ hdd with ⟨hq, ht5⟩ | ⟨hq, ht5⟩
        · refine ⟨Or.inl hq, inner, pcols, ?_⟩
          subst hp3
          subst ht5
          rw [← hpp]
          have hdq : dropDuplicatesIfDistinct sq
              (havingFilterIfPresent hv (Plan.transform inner pcols)) =
              havingFilterIfPresent hv (Plan.transform inner pcols) := by
            unfold dropDuplicatesIfDistinct
            rw [SelectNode.set_quantifier] at hq
            rw [hq]
            simp
          rw [SelectNode.limit_clause, SelectNode.set_quantifier,
            SelectNode.having_clause]
          rw [hdq]
          cases lc <;> cases hv <;> rfl
        · refine ⟨Or.inr hq, inner, pcols, ?_⟩
          subst hp3
          subst ht5
          rw [← hpp]
          have hdq : dropDuplicatesIfDistinct sq
              (havingFilterIfPresent hv (Plan.transform inner pcols)) =
              .dropDuplicates (havingFilterIfPresent hv (Plan.transform inner pcols)) := by
            unfold dropDuplicatesIfDistinct
            rw [SelectNode.set_quantifier] at hq
            rw [hq]
            simp
          rw [SelectNode.limit_clause, SelectNode.set_quantifier,
            SelectNode.having_clause]
          rw [hdq]
          cases lc <;> cases hv <;> rfl



/-- A Select with DISTINCT (lowercase), HAVING and LIMIT all present, used
to witness the outer-stage order. -/
def selectDistinctHavingLimit : SelectNode := .mk
  (.columns [.derivedColumn (.columnReference ["a"]) none])
  [.tableName "t" none] none none (some (.columnReference ["c"]))
  none (some ⟨1, 2⟩) "distinct"

def planDistinctHavingLimit : Plan := .limit
  (.dropDuplicates
    (.filter
      (.transform (.getTable "t" none)
        [.derivedColumn (.columnReference ["a"]) none])
      (.columnReference ["c"])))
  1 2

theorem compile_select_outer_stage_order_witness :
    (strUpper "distinct" = "ALL" ∨ strUpper "distinct" = "DISTINCT") ∧
    ∃ inner pcols,
      planDistinctHavingLimit = limitIfPresent (some ⟨1, 2⟩)
        (dropDuplicatesIfDistinct "distinct"
          (havingFilterIfPresent (some (.columnReference ["c"]))
            (.transform inner pcols))) :=
  compile_select_outer_stage_order selectDistinctHavingLimit
    [.derivedColumn (.columnReference ["a"]) none] 0
    planDistinctHavingLimit 0 rfl
    (by
      simp [compile_select, compile_from_clause, foldTables,
        _compile_single_table, _transform_table, _filter_pre_transform,
        _filter_post_transform, _drop_duplicates, _order, _limit,
        selectDistinctHavingLimit, planDistinctHavingLimit, split_aggregates,
        split, _normalize_group_by, tmpColumn, ref, strUpper,
        SelectNode.select_list, SelectNode.from_clause,
        SelectNode.where_clause, SelectNode.group_by_clause,
        SelectNode.having_clause, SelectNode.order_by_clause,
        SelectNode.limit_clause, SelectNode.set_quantifier]
      rfl)

/-- The AST of `SELECT a FROM t GROUP BY b`. -/
def selectGroupByQuery : SelectNode := .mk
  (.columns [.derivedColumn (.columnReference ["a"]) none])
  [.tableName "t" none] none (some [.columnReference ["b"]])
  none none none "ALL"

def planGroupByQuery : Plan := .transform
  (.transform (.getTable "t" none)
    [.derivedColumn (.columnReference ["b"]) (some "b")])
  [.derivedColumn (.columnReference ["a"]) none]

/-- The AST of `SELECT a GROUP BY b` (empty FROM list). -/
def selectGroupByNoFrom : SelectNode := .mk
  (.columns [.derivedColumn (.columnReference ["a"]) none])
  [] none (some [.columnReference ["b"]]) none none none "ALL"

/-- C7 counterexample: `SELECT a FROM t GROUP BY b` — no aggregate in the
select list, GROUP BY present, non-empty FROM — is not rejected: it compiles
to a plan (the group-by keys become pre-aggregate Transform columns and no
Aggregate node is produced). -/
theorem compile_group_by_without_aggregate_ok :
    compile_dag selectGroupByQuery = .ok (planGroupByQuery, 0) := by
  simp [compile_dag, compile, compile_select, compile_from_clause, foldTables,
    _compile_single_table, _transform_table, _filter_pre_transform,
    _filter_post_transform, _drop_duplicates, _order, _limit,
    selectGroupByQuery, planGroupByQuery, split_aggregates, split,
    _normalize_group_by, _normalize_group_by_cols, _group_by_col_alias,
    get_selected_column_name, tmpColumn, ref, strUpper,
    SelectNode.select_list, SelectNode.from_clause, SelectNode.where_clause,
    SelectNode.group_by_clause, SelectNode.having_clause,
    SelectNode.order_by_clause, SelectNode.limit_clause,
    SelectNode.set_quantifier]
  rfl

/-- C7 (amended): a Select whose select list contains no aggregate but whose
group-by clause is present compiles successfully when the FROM list is
non-empty (producing nested Transforms and no Aggregate); the spec's parser
example `SELECT a GROUP BY b` is rejected by the compiler only because its
FROM list is empty. -/
theorem group_by_without_aggregate_accepted :
    compile_dag selectGroupByQuery = .ok (planGroupByQuery, 0) ∧
    compile_dag selectGroupByNoFrom = .error .emptyFromClause := by
  constructor
  · simp [compile_dag, compile, compile_select, compile_from_clause, foldTables,
      _compile_single_table, _transform_table, _filter_pre_transform,
      _filter_post_transform, _drop_duplicates, _order, _limit,
      selectGroupByQuery, planGroupByQuery, split_aggregates, split,
      _normalize_group_by, _normalize_group_by_cols, _group_by_col_alias,
      get_selected_column_name, tmpColumn, ref, strUpper,
      SelectNode.select_list, SelectNode.from_clause, SelectNode.where_clause,
      SelectNode.group_by_clause, SelectNode.having_clause,
      SelectNode.order_by_clause, SelectNode.limit_clause,
      SelectNode.set_quantifier]
    rfl
  · simp [compile_dag, compile, compile_select, compile_from_clause,
      selectGroupByNoFrom, except_throw_eq, except_bind_error,
      SelectNode.from_clause]

theorem foldTables_getTables (acc : Plan) (ts : List (String × Option String))
    (g : Nat) :
    foldTables acc (ts.map fun pr => TableExpr.tableName pr.1 pr.2) g =
      .ok (ts.foldl (fun a pr => Plan.crossJoin a (.getTable pr.1 pr.2)) acc, g) := by
  induction ts generalizing acc with
  | nil => simp [foldTables, except_pure_eq]
  | cons hd tl ih =>
    simp only [List.map_cons, foldTables, _compile_single_table,
      except_pure_eq, except_bind_ok, List.foldl_cons]
    exact ih _

/-- C8: an empty FROM clause fails with the empty-from-clause error, and a
non-empty FROM clause of table names compiles to the left-to-right fold of
`GetTable` leaves under `CrossJoin`. -/
theorem compile_from_clause_cross_join_fold :
    (∀ g : Nat, compile_from_clause [] g = .error .emptyFromClause) ∧
    ∀ (hd : String × Option String) (tl : List (String × Option String)) (g : Nat),
      compile_from_clause ((hd :: tl).map fun pr => TableExpr.tableName pr.1 pr.2) g =
        .ok (tl.foldl (fun a pr => Plan.crossJoin a (.getTable pr.1 pr.2))
          (.getTable hd.1 hd.2), g) := by
  constructor
  · intro g
    simp [compile_from_clause, except_throw_eq]
  · intro hd tl g
    simp only [List.map_cons, compile_from_clause, _compile_single_table,
      except_pure_eq, except_bind_ok]
    exact foldTables_getTables _ tl g

/-- C9: the set-quantifier check is case-insensitive — for every Select the
plan is wrapped in DropDuplicates exactly when the quantifier uppercases to
DISTINCT, left unwrapped exactly when it uppercases to ALL, and compilation
fails with the unknown-set-quantifier error for any other value. -/
theorem drop_duplicates_case_insensitive (n : SelectNode) (t : Plan) :
    (strUpper n.set_quantifier = "DISTINCT" →
      _drop_duplicates n t = .ok (.dropDuplicates t)) ∧
    (strUpper n.set_quantifier = "ALL" → _drop_duplicates n t = .ok t) ∧
    (strUpper n.set_quantifier ≠ "ALL" → strUpper n.set_quantifier ≠ "DISTINCT" →
      _drop_duplicates n t =
        .error (.unknownSetQuantifier (strUpper n.set_quantifier))) := by
  have he : _drop_duplicates n t =
      (if strUpper n.set_quantifier = "ALL" then (pure t : Except CompileError Plan)
       else if strUpper n.set_quantifier = "DISTINCT" then pure (.dropDuplicates t)
       else throw (.unknownSetQuantifier (strUpper n.set_quantifier))) := rfl
  refine ⟨?_, ?_, ?_⟩
  · intro h
    rw [he, h]
    rw [if_neg (by decide), if_pos rfl]
    rfl
  · intro h
    rw [he, h, if_pos rfl]
    rfl
  · intro h1 h2
    rw [he, if_neg h1, if_neg h2]
    rfl

theorem drop_duplicates_case_insensitive_witness :
    _drop_duplicates
      (SelectNode.mk .asterisk [] none none none none none "Distinct")
      (.getTable "t" none) = .ok (.dropDuplicates (.getTable "t" none)) :=
  (drop_duplicates_case_insensitive _ _).1 (by decide)

theorem strLower_beq_self (s : String) :
    (strLower (strLower s) == strLower s) = true := by
  simp [strLower_idem]

theorem lowercaseHows_filter_pre (n : SelectNode) (t : Plan)
    (h : lowercaseHows t = true) :
    lowercaseHows (_filter_pre_transform n t) = true := by
  cases hw : n.where_clause with
  | none => simpa [_filter_pre_transform, hw] using h
  | some w => simpa [_filter_pre_transform, hw, lowercaseHows] using h

theorem lowercaseHows_filter_post (n : SelectNode) (t : Plan)
    (h : lowercaseHows t = true) :
    lowercaseHows (_filter_post_transform n t) = true := by
  cases hw : n.having_clause with
  | none => simpa [_filter_post_transform, hw] using h
  | some w => simpa [_filter_post_transform, hw, lowercaseHows] using h

theorem lowercaseHows_order (n : SelectNode) (t : Plan)
    (h : lowercaseHows t = true) :
    lowercaseHows (_order n t) = true := by
  cases hw : n.order_by_clause with
  | none => simpa [_order, hw] using h
  | some w => simpa [_order, hw, lowercaseHows] using h

theorem lowercaseHows_limit (n : SelectNode) (t : Plan)
    (h : lowercaseHows t = true) :
    lowercaseHows (_limit n t) = true := by
  cases hw : n.limit_clause with
  | none => simpa [_limit, hw] using h
  | some w => simpa [_limit, hw, lowercaseHows] using h

theorem lowercaseHows_drop_duplicates (n : SelectNode) (t r : Plan)
    (h : _drop_duplicates n t = .ok r) (ht : lowercaseHows t = true) :
    lowercaseHows r = true := by
  rcases drop_duplicates_cases n t r h with ⟨_, rfl⟩ | ⟨_, rfl⟩
  · exact ht
  · simpa [lowercaseHows] using ht

theorem lowercaseHows_transform_table (n : SelectNode) (t : Plan) (g : Nat)
    (p : Plan) (g1 : Nat) (ht : lowercaseHows t = true)
    (h : _transform_table n t g = .ok (p, g1)) : lowercaseHows p = true := by
  cases hsl : n.select_list with
  | asterisk =>
    simp only [_transform_table, hsl] at h
    cases hgb : n.group_by_clause with
    | none =>
      rw [hgb] at h
      simp only [except_pure_eq, Except.ok.injEq, Prod.mk.injEq] at h
      obtain ⟨hp, _⟩ := h
      rw [← hp]
      exact lowercaseHows_order n t ht
    | some gbs =>
      rw [hgb] at h
      simp [except_throw_eq] at h
  | columns cols =>
    simp only [_transform_table, hsl] at h
    cases hsp : split_aggregates cols g with
    | error er => rw [hsp] at h; simp [except_bind_error] at h
    | ok res =>
      obtain ⟨columns, aggs, pres, gs⟩ := res
      rw [hsp] at h
      simp only [except_bind_ok] at h
      rcases hng : _normalize_group_by n.group_by_clause gs with ⟨gb2, gbc, g2⟩
      rw [hng] at h
      simp only [except_pure_eq, Except.ok.injEq, Prod.mk.injEq] at h
      obtain ⟨hp, _⟩ := h
      rw [← hp]
      simp only [lowercaseHows]
      apply lowercaseHows_order
      cases pres ++ gbc <;> cases aggs <;>
        simpa [lowercaseHows] using ht



/-! The all-Join-kinds-lowercase invariant, one motive per compiler
function. -/

def lchCompileP (n : SelectNode) (g : Nat) : Prop :=
  ∀ p g1, compile n g = .ok (p, g1) → lowercaseHows p = true

def lchSelectP (n : SelectNode) (g : Nat) : Prop :=
  ∀ p g1, compile_select n g = .ok (p, g1) → lowercaseHows p = true

def lchFromP (l : List TableExpr) (g : Nat) : Prop :=
  ∀ p g1, compile_from_clause l g = .ok (p, g1) → lowercaseHows p = true

def lchFoldTablesP (acc : Plan) (l : List TableExpr) (g : Nat) : Prop :=
  lowercaseHows acc = true →
    ∀ p g1, foldTables acc l g = .ok (p, g1) → lowercaseHows p = true

def lchSingleP (t : TableExpr) (g : Nat) : Prop :=
  ∀ p g1, _compile_single_table t g = .ok (p, g1) → lowercaseHows p = true

def lchFoldJoinsP (acc : Plan) (l : List JoinSpec) (g : Nat) : Prop :=
  lowercaseHows acc = true →
    ∀ p g1, foldJoins acc l g = .ok (p, g1) → lowercaseHows p = true

theorem compile_single_table_lowercase :
    ∀ (t : TableExpr) (g : Nat), lchSingleP t g := by
  apply _compile_single_table.induct lchCompileP lchSelectP lchFromP
    lchFoldTablesP lchSingleP lchFoldJoinsP
  · -- compile
    intro n g ih p g1 h
    simp only [compile] at h
    exact ih p g1 h
  · -- compile_select
    intro sl fc w gb hv ob lc sq g ih p g1 h
    simp only [compile_select] at h
    cases hfc : compile_from_clause fc g with
    | error er => rw [hfc] at h; simp [except_bind_error] at h
    | ok res =>
      obtain ⟨t1, gx⟩ := res
      rw [hfc] at h
      simp only [except_bind_ok] at h
      cases htt : _transform_table (.mk sl fc w gb hv ob lc sq)
          (_filter_pre_transform (.mk sl fc w gb hv ob lc sq) t1) gx with
      | error er => rw [htt] at h; simp [except_bind_error] at h
      | ok res2 =>
        obtain ⟨t3, g3⟩ := res2
        rw [htt] at h
        simp only [except_bind_ok] at h
        cases hdd : _drop_duplicates (.mk sl fc w gb hv ob lc sq)
            (_filter_post_transform (.mk sl fc w gb hv ob lc sq) t3) with
        | error er => rw [hdd] at h; simp [except_bind_error] at h
        | ok t5 =>
          rw [hdd] at h
          simp only [except_bind_ok, except_pure_eq, Except.ok.injEq,
            Prod.mk.injEq] at h
          obtain ⟨hp, _⟩ := h
          have ht1 := ih t1 gx hfc
          have ht2 := lowercaseHows_filter_pre (.mk sl fc w gb hv ob lc sq) t1 ht1
          have ht3 := lowercaseHows_transform_table _ _ _ _ _ ht2 htt
          have ht4 := lowercaseHows_filter_post (.mk sl fc w gb hv ob lc sq) t3 ht3
          have ht5 := lowercaseHows_drop_duplicates _ _ _ hdd ht4
          rw [← hp]
          exact lowercaseHows_limit _ _ ht5
  · -- compile_from_clause nil
    intro g p g1 h
    simp [compile_from_clause, except_throw_eq] at h
  · -- compile_from_clause cons
    intro t rest g ih1 ih2 p g1 h
    simp only [compile_from_clause] at h
    cases hct : _compile_single_table t g with
    | error er => rw [hct] at h; simp [except_bind_error] at h
    | ok res =>
      obtain ⟨r0, gx⟩ := res
      rw [hct] at h
      simp only [except_bind_ok] at h
      exact ih2 r0 gx (ih1 r0 gx hct) p g1 h
  · -- foldTables nil
    intro acc g hacc p g1 h
    simp only [foldTables, except_pure_eq, Except.ok.injEq, Prod.mk.injEq] at h
    obtain ⟨hp, _⟩ := h
    exact hp ▸ hacc
  · -- foldTables cons
    intro acc t rest g ih1 ih2 hacc p g1 h
    simp only [foldTables] at h
    cases hct : _compile_single_table t g with
    | error er => rw [hct] at h; simp [except_bind_error] at h
    | ok res =>
      obtain ⟨nt, gx⟩ := res
      rw [hct] at h
      simp only [except_bind_ok] at h
      have hnt := ih1 nt gx hct
      have hcj : lowercaseHows (acc.crossJoin nt) = true := by
        simp [lowercaseHows, hacc, hnt]
      exact ih2 nt gx hcj p g1 h
  · -- tableName
    intro t a g p g1 h
    simp only [_compile_single_table, except_pure_eq, Except.ok.injEq,
      Prod.mk.injEq] at h
    obtain ⟨hp, _⟩ := h
    rw [← hp]
    rfl
  · -- nested select
    intro s g ih p g1 h
    simp only [_compile_single_table] at h
    exact ih p g1 h
  · -- joinedTable
    intro t joins g ih1 ih2 p g1 h
    simp only [_compile_single_table] at h
    cases hcf : compile_from_clause [t] g with
    | error er => rw [hcf] at h; simp [except_bind_error] at h
    | ok res =>
      obtain ⟨r0, gx⟩ := res
      rw [hcf] at h
      simp only [except_bind_ok] at h
      exact ih2 r0 gx (ih1 r0 gx hcf) p g1 h
  · -- foldJoins nil
    intro acc g hacc p g1 h
    simp only [foldJoins, except_pure_eq, Except.ok.injEq, Prod.mk.injEq] at h
    obtain ⟨hp, _⟩ := h
    exact hp ▸ hacc
  · -- foldJoins, Join head
    intro acc how tbl onExpr rest g ih1 ih2 hacc p g1 h
    simp only [foldJoins] at h
    cases hcf : compile_from_clause [tbl] g with
    | error er => rw [hcf] at h; simp [except_bind_error] at h
    | ok res =>
      obtain ⟨r0, gx⟩ := res
      rw [hcf] at h
      simp only [except_bind_ok] at h
      have hr := ih1 r0 gx hcf
      have hj : lowercaseHows (acc.join r0 (strLower how) onExpr) = true := by
        simp [lowercaseHows, hacc, hr, strLower_beq_self]
      exact ih2 r0 gx hj p g1 h
  · -- foldJoins, CrossJoin head
    intro acc tbl rest g ih1 ih2 hacc p g1 h
    simp only [foldJoins] at h
    cases hcf : compile_from_clause [tbl] g with
    | error er => rw [hcf] at h; simp [except_bind_error] at h
    | ok res =>
      obtain ⟨r0, gx⟩ := res
      rw [hcf] at h
      simp only [except_bind_ok] at h
      have hr := ih1 r0 gx hcf
      have hcj : lowercaseHows (acc.crossJoin r0) = true := by
        simp [lowercaseHows, hacc, hr]
      exact ih2 r0 gx hcj p g1 h

/-- C10: every Join plan node emitted by the compiler carries a lowercased
join kind — the plan produced by a successful `_compile_single_table` (and
hence by any enclosing compile) satisfies the all-Join-kinds-lowercase
invariant, because the only place a Join node is constructed lowercases the
AST `how` field. -/
theorem compiled_join_kinds_lowercase (t : TableExpr) (g : Nat) (p : Plan)
    (g1 : Nat) (h : _compile_single_table t g = .ok (p, g1)) :
    lowercaseHows p = true :=
  compile_single_table_lowercase t g p g1 h

theorem compiled_join_kinds_lowercase_witness :
    lowercaseHows (Plan.join (.getTable "t" none) (.getTable "u" none)
      "left" (.columnReference ["c"])) = true :=
  compiled_join_kinds_lowercase
    (.joinedTable (.tableName "t" none)
      [.join "LEFT" (.tableName "u" none) (.columnReference ["c"])]) 0 _ 0
    (by
      simp only [_compile_single_table, compile_from_clause, foldTables,
        foldJoins, except_pure_eq, except_bind_ok]
      rfl)

end Framequery
